import Mathlib

/-!
Verification development for the `web-page-analyzer` repository.

The definitions below are a shallow embedding of the Go code in
`internal/domain/services/analyzer_service.go` (plus the constants file of the
`services` package and the entities in `internal/domain/entities/analysis.go`).
Strings are modelled as Lean `String` over their character lists; Go's
byte-oriented operations are modelled on characters, which coincides with the
Go behaviour on the ASCII inputs the analyzer manipulates (URL syntax and the
keyword tables are all ASCII).  Go's `net/url` package (an external dependency
of the embedded code) is modelled by `goURLParse`, `GoURL.resolveReference`
and `GoURL.render` below, following the structure of the Go standard library
implementation; percent-escape handling is modelled as validation (components
are kept in their escaped textual form rather than decoded), and userinfo /
IPv6-zone / `OmitHost` corners that the analyzer never exercises are noted
inline.
-/

namespace WebAnalyzer

/-! ## Go string primitives (`strings` package operations used by the code) -/

/-- Model of `strings.HasPrefix`. -/
def strStartsWith (s pre : String) : Bool :=
  pre.data.isPrefixOf s.data

/-- Model of `strings.HasSuffix`. -/
def strEndsWith (s suf : String) : Bool :=
  suf.data.reverse.isPrefixOf s.data.reverse

/-- Auxiliary scan for `strContains`. -/
def strContainsAux (sub : List Char) : List Char → Bool
  | [] => sub.isPrefixOf []
  | c :: rest => sub.isPrefixOf (c :: rest) || strContainsAux sub rest

/-- Model of `strings.Contains`. -/
def strContains (s sub : String) : Bool :=
  strContainsAux sub.data s.data

/-- Model of `strings.ContainsRune` (used via `strings.Contains` with a
one-character pattern in the embedded code). -/
def strContainsChar (s : String) (c : Char) : Bool :=
  s.data.contains c

/-- ASCII lower-casing of one character (`strings.ToLower` acts per rune; the
inputs fed to it by the analyzer are ASCII). -/
def toLowerChar (c : Char) : Char :=
  if 'A' ≤ c ∧ c ≤ 'Z' then Char.ofNat (c.toNat + 32) else c

/-- Model of `strings.ToLower` on ASCII text. -/
def strToLower (s : String) : String :=
  String.mk (s.data.map toLowerChar)

/-- Go's `unicode.IsSpace` restricted to the ASCII white-space characters. -/
def isSpaceChar (c : Char) : Bool :=
  c = ' ' ∨ c = '\t' ∨ c = '\n' ∨ c = '\r' ∨ c = Char.ofNat 11 ∨ c = Char.ofNat 12

/-- Model of `strings.TrimSpace` on ASCII text. -/
def trimSpace (s : String) : String :=
  String.mk (((s.data.dropWhile isSpaceChar).reverse.dropWhile isSpaceChar).reverse)

/-- Split a character list at the first occurrence of `c`; `none` when `c`
does not occur (model of `strings.Cut` / the `split` helper of `net/url`). -/
def listSplitFirst (c : Char) : List Char → Option (List Char × List Char)
  | [] => none
  | x :: xs =>
    if x = c then some ([], xs)
    else match listSplitFirst c xs with
      | none => none
      | some (pre, post) => some (x :: pre, post)

/-- Split a character list at the last occurrence of `c` (model of
`strings.LastIndex` based splitting in `net/url`). -/
def listSplitLast (c : Char) (l : List Char) : Option (List Char × List Char) :=
  match listSplitFirst c l.reverse with
  | none => none
  | some (sufRev, preRev) => some (preRev.reverse, sufRev.reverse)

/-! ## Model of Go `net/url` (external dependency of the analyzer)

Fields keep the names of Go's `url.URL` except `Opaque`, rendered here as
`Opq`.  `Path` and `Fragment` are kept in their escaped (raw textual) form;
percent-escapes are validated but not decoded, which is observationally
equivalent for the escape-free URLs the claims are about. -/

structure GoURL where
  Scheme : String := ""
  Opq : String := ""
  Host : String := ""
  Path : String := ""
  ForceQuery : Bool := false
  RawQuery : String := ""
  Fragment : String := ""
  deriving DecidableEq

def isAlphaChar (c : Char) : Bool :=
  ('a' ≤ c ∧ c ≤ 'z') ∨ ('A' ≤ c ∧ c ≤ 'Z')

def isDigitChar (c : Char) : Bool :=
  '0' ≤ c ∧ c ≤ '9'

def isHexChar (c : Char) : Bool :=
  isDigitChar c ∨ ('a' ≤ c ∧ c ≤ 'f') ∨ ('A' ≤ c ∧ c ≤ 'F')

def hexVal (c : Char) : Nat :=
  if isDigitChar c then c.toNat - '0'.toNat
  else if 'a' ≤ c ∧ c ≤ 'f' then c.toNat - 'a'.toNat + 10
  else if 'A' ≤ c ∧ c ≤ 'F' then c.toNat - 'A'.toNat + 10
  else 0

/-- Model of `net/url`'s `stringContainsCTLByte`. -/
def containsCTLByte (s : String) : Bool :=
  s.data.any (fun c => c.toNat < 0x20 ∨ c.toNat = 0x7f)

/-- Scanner of `net/url`'s `getScheme`: `none` means "no scheme, the whole
raw URL is the rest"; `seen` collects the candidate scheme characters. -/
def getSchemeAux (seen : List Char) : List Char → Except String (Option (List Char × List Char))
  | [] => .ok none
  | c :: rest =>
    if isAlphaChar c then getSchemeAux (seen ++ [c]) rest
    else if isDigitChar c ∨ c = '+' ∨ c = '-' ∨ c = '.' then
      if seen = [] then .ok none else getSchemeAux (seen ++ [c]) rest
    else if c = ':' then
      if seen = [] then .error "missing protocol scheme"
      else .ok (some (seen, rest))
    else .ok none

/-- Model of `net/url`'s `getScheme`. -/
def getScheme (rawURL : String) : Except String (String × String) :=
  match getSchemeAux [] rawURL.data with
  | .error e => .error e
  | .ok none => .ok ("", rawURL)
  | .ok (some (sch, rest)) => .ok (String.mk sch, String.mk rest)

/-- Model of `net/url`'s `validOptionalPort`. -/
def validOptionalPort (port : List Char) : Bool :=
  match port with
  | [] => true
  | c :: rest => c = ':' ∧ rest.all isDigitChar

/-- `net/url`'s `shouldEscape` for the host component (`encodeHost` mode). -/
def shouldEscapeHostChar (c : Char) : Bool :=
  if isAlphaChar c ∨ isDigitChar c then false
  else if strContainsChar "!$&'()*+,;=:[]<>\"" c then false
  else if c = '-' ∨ c = '_' ∨ c = '.' ∨ c = '~' then false
  else true

/-- Validation pass of `net/url`'s `unescape` in `encodeHost` mode: checks
percent-escapes are well formed (and, per RFC 3986, that escaped host bytes
are non-ASCII except `%25`) and that unescaped characters are legal host
characters.  The decoded text itself is not needed by the analyzer, so the
input is returned unchanged on success. -/
def unescapeHostOk : List Char → Bool
  | [] => true
  | '%' :: rest =>
    match rest with
    | a :: b :: rest2 =>
      if isHexChar a ∧ isHexChar b then
        if hexVal a < 8 ∧ ¬(a = '2' ∧ b = '5') then false
        else unescapeHostOk rest2
      else false
    | _ => false
  | c :: rest =>
    if c.toNat < 0x80 ∧ shouldEscapeHostChar c then false
    else unescapeHostOk rest

/-- Model of `net/url`'s `parseHost` (IPv6 zone identifiers are accepted
without further decoding — the analyzer never constructs them). -/
def parseHostModel (host : List Char) : Except String String :=
  match host with
  | '[' :: _ =>
    match listSplitLast ']' host with
    | none => .error "missing ']' in host"
    | some (_, afterBracket) =>
      if validOptionalPort afterBracket then .ok (String.mk host)
      else .error "invalid port after host"
  | _ =>
    let portOk :=
      match listSplitLast ':' host with
      | none => true
      | some (_, portDigits) => validOptionalPort (':' :: portDigits)
    if portOk then
      if unescapeHostOk host then .ok (String.mk host)
      else .error "invalid character in host name"
    else .error "invalid port after host"

/-- `net/url`'s `validUserinfo`. -/
def validUserinfo (s : List Char) : Bool :=
  s.all (fun c =>
    isAlphaChar c ∨ isDigitChar c ∨
    strContainsChar "-._:~!$&'()*+,;=%@" c)

/-- Model of `net/url`'s `parseAuthority`, returning the host (the analyzer
never reads the userinfo, so only its validity is modelled). -/
def parseAuthorityModel (authority : List Char) : Except String String :=
  match listSplitLast '@' authority with
  | none => parseHostModel authority
  | some (userinfo, hostPart) =>
    match parseHostModel hostPart with
    | .error e => .error e
    | .ok h =>
      if validUserinfo userinfo then .ok h
      else .error "net/url: invalid userinfo"

/-- Percent-escape validation of `net/url`'s `unescape` in `encodePath` /
`encodeFragment` mode (no characters are rejected besides malformed
escapes). -/
def escapesOk : List Char → Bool
  | [] => true
  | '%' :: rest =>
    match rest with
    | a :: b :: rest2 => if isHexChar a ∧ isHexChar b then escapesOk rest2 else false
    | _ => false
  | _ :: rest => escapesOk rest

/-- Model of `net/url`'s internal `parse(rawURL, viaRequest=false)`. -/
def goParseNoFrag (rawURL : String) : Except String GoURL :=
  if containsCTLByte rawURL then .error "net/url: invalid control character in URL"
  else
    match getScheme rawURL with
    | .error e => .error e
    | .ok (schRaw, rest0) =>
      let scheme := strToLower schRaw
      -- query splitting (including the bare-"?" ForceQuery form)
      let qsplit :=
        if strEndsWith rest0 "?" ∧ ¬strContainsChar (String.mk (rest0.data.dropLast)) '?' then
          (String.mk rest0.data.dropLast, true, "")
        else
          match listSplitFirst '?' rest0.data with
          | none => (rest0, false, "")
          | some (pre, post) => (String.mk pre, false, String.mk post)
      let rest1 := qsplit.1
      let forceQuery := qsplit.2.1
      let rawQuery := qsplit.2.2
      if ¬strStartsWith rest1 "/" then
        if scheme ≠ "" then
          -- rootless path after a scheme is opaque
          .ok { Scheme := scheme, Opq := rest1, ForceQuery := forceQuery, RawQuery := rawQuery }
        else
          -- relative-path reference: first segment may not contain a colon
          let segment := match listSplitFirst '/' rest1.data with
            | none => rest1.data
            | some (pre, _) => pre
          if segment.contains ':' then
            .error "first path segment in URL cannot contain colon"
          else if escapesOk rest1.data then
            .ok { Scheme := scheme, Path := rest1, ForceQuery := forceQuery, RawQuery := rawQuery }
          else
            .error "invalid URL escape"
      else
        if (scheme ≠ "" ∨ ¬strStartsWith rest1 "///") ∧ strStartsWith rest1 "//" then
          let afterSlashes := rest1.data.drop 2
          let asplit :=
            match listSplitFirst '/' afterSlashes with
            | none => (afterSlashes, ([] : List Char))
            | some (pre, post) => (pre, '/' :: post)
          match parseAuthorityModel asplit.1 with
          | .error e => .error e
          | .ok host =>
            if escapesOk asplit.2 then
              .ok { Scheme := scheme, Host := host, Path := String.mk asplit.2,
                    ForceQuery := forceQuery, RawQuery := rawQuery }
            else
              .error "invalid URL escape"
        else
          if escapesOk rest1.data then
            .ok { Scheme := scheme, Path := rest1, ForceQuery := forceQuery, RawQuery := rawQuery }
          else
            .error "invalid URL escape"

/-- Model of `url.Parse`: split the fragment, parse the remainder, validate
the fragment's escapes. -/
def goURLParse (rawURL : String) : Except String GoURL :=
  let (before, frag) :=
    match listSplitFirst '#' rawURL.data with
    | none => (rawURL, "")
    | some (pre, post) => (String.mk pre, String.mk post)
  match goParseNoFrag before with
  | .error e => .error e
  | .ok u =>
    if frag = "" then .ok u
    else if escapesOk frag.data then .ok { u with Fragment := frag }
    else .error "invalid URL escape"

/-- Model of `url.URL.Hostname` (strips a valid `:port` and IPv6 brackets). -/
def goHostname (host : String) : String :=
  match host.data with
  | '[' :: rest =>
    (match listSplitFirst ']' rest with
     | none => host
     | some (inner, _) => String.mk inner)
  | _ =>
    match listSplitLast ':' host.data with
    | none => host
    | some (pre, portDigits) =>
      if validOptionalPort (':' :: portDigits) then String.mk pre else host

/-- `net/url`'s `resolvePath` dot-segment step (the loop body of the Go
implementation, acting on the builder string `dst` and the `first` flag). -/
def dotSegStep (acc : String × Bool) (elem : String) : String × Bool :=
  let (dst, first) := acc
  if elem = "." then (dst, false)
  else if elem = ".." then
    let str := dst.data.drop 1
    match listSplitLast '/' str with
    | none => ("/", true)
    | some (pre, _) => (String.mk ('/' :: pre), first)
  else
    ((if ¬first then dst ++ "/" else dst) ++ elem, false)

/-- Split a character list on every occurrence of `sep` (the element
sequence traversed by the `strings.Cut` loop of `resolvePath`). -/
def listSplitOnChar (sep : Char) : List Char → List (List Char)
  | [] => [[]]
  | c :: rest =>
    let r := listSplitOnChar sep rest
    if c = sep then [] :: r
    else match r with
      | [] => [[c]]
      | h :: t => (c :: h) :: t

/-- Model of `net/url`'s `resolvePath`. -/
def resolvePath (base ref : String) : String :=
  let full :=
    if ref = "" then base
    else if ¬strStartsWith ref "/" then
      (match listSplitLast '/' base.data with
       | none => ""
       | some (pre, _) => String.mk (pre ++ ['/'])) ++ ref
    else ref
  if full = "" then ""
  else
    let elems := (listSplitOnChar '/' full.data).map String.mk
    let (dst, _) := elems.foldl dotSegStep ("/", true)
    let dst := if elems.getLast? = some "." ∨ elems.getLast? = some ".." then dst ++ "/" else dst
    if dst.data.length > 1 ∧ dst.data.get? 1 = some '/' then String.mk (dst.data.drop 1) else dst

/-- Model of `url.URL.ResolveReference` (userinfo omitted: the analyzer's
URLs carry none). -/
def GoURL.resolveReference (u ref : GoURL) : GoURL :=
  let url := if ref.Scheme = "" then { ref with Scheme := u.Scheme } else ref
  if ref.Scheme ≠ "" ∨ ref.Host ≠ "" then
    { url with Path := resolvePath ref.Path "" }
  else if ref.Opq ≠ "" then
    { url with Host := "", Path := "" }
  else
    let url :=
      if ref.Path = "" ∧ ¬ref.ForceQuery ∧ ref.RawQuery = "" then
        let url := { url with RawQuery := u.RawQuery }
        if ref.Fragment = "" then { url with Fragment := u.Fragment } else url
      else url
    { url with Host := u.Host, Path := resolvePath u.Path ref.Path }

/-- Model of `url.URL.String` (no userinfo, no `OmitHost`; host escaping is
the identity on the validated hosts this model produces). -/
def GoURL.render (u : GoURL) : String :=
  let pre :=
    (if u.Scheme ≠ "" then u.Scheme ++ ":" else "")
  let core :=
    if u.Opq ≠ "" then u.Opq
    else
      let auth :=
        if u.Scheme ≠ "" ∨ u.Host ≠ "" then
          (if u.Host ≠ "" ∨ u.Path ≠ "" then "//" else "") ++ u.Host
        else ""
      let path := u.Path
      let sep := if path ≠ "" ∧ ¬strStartsWith path "/" ∧ u.Host ≠ "" then "/" else ""
      let dotdot :=
        if pre ++ auth ++ sep = "" then
          let segment := match listSplitFirst '/' path.data with
            | none => path.data
            | some (p, _) => p
          if segment.contains ':' then "./" else ""
        else ""
      auth ++ sep ++ dotdot ++ path
  pre ++ core
    ++ (if u.ForceQuery ∨ u.RawQuery ≠ "" then "?" ++ u.RawQuery else "")
    ++ (if u.Fragment ≠ "" then "#" ++ u.Fragment else "")

/-! ## DOM node model

Embedding of the `golang.org/x/net/html` node tree as consumed by the
analyzer: a node kind discriminator, tag/text data, an ordered attribute
list, and the children reached through `FirstChild`/`NextSibling`
(represented as a forest).  `HNode`/`HForest` are mutually inductive so that
all traversals below are structurally recursive. -/

inductive NodeKind where
  | document | doctype | element | text | comment
  deriving DecidableEq

structure HAttr where
  Key : String
  Val : String
  deriving DecidableEq

mutual
inductive HNode where
  | mk (kind : NodeKind) (data : String) (attr : List HAttr) (children : HForest)

inductive HForest where
  | nil
  | cons (n : HNode) (f : HForest)
end

def HNode.kind : HNode → NodeKind
  | .mk k _ _ _ => k

def HNode.data : HNode → String
  | .mk _ d _ _ => d

def HNode.attr : HNode → List HAttr
  | .mk _ _ a _ => a

def HNode.children : HNode → HForest
  | .mk _ _ _ c => c

/-- `n.FirstChild` of the Go node model. -/
def HForest.firstChild : HForest → Option HNode
  | .nil => none
  | .cons n _ => some n

/-! ## Constants of the `services` package (its constants file) -/

def MaxContentSize : Nat := 10 * 1024 * 1024
def MaxURLLength : Nat := 2048
def MaxHTMLDepth : Nat := 100
def HTMLElementTitle : String := "title"
def HTMLElementA : String := "a"
def HTMLElementH1 : String := "h1"
def HTMLElementH2 : String := "h2"
def HTMLElementH3 : String := "h3"
def HTMLElementH4 : String := "h4"
def HTMLElementH5 : String := "h5"
def HTMLElementH6 : String := "h6"
def HTMLElementButton : String := "button"
def HTMLElementLabel : String := "label"
def HTMLElementSpan : String := "span"
def HTMLElementDiv : String := "div"
def HTMLElementP : String := "p"
def HTMLElementLegend : String := "legend"
def HTMLAttrHref : String := "href"
def LinkTypeEmail : String := "email"
def LinkTypeURL : String := "url"
def LinkTypeTel : String := "tel"
def LinkTypeSearch : String := "search"

def SupportedSchemes : List String := ["http", "https"]

def AccessibilityElements : List String :=
  [HTMLElementButton, HTMLElementA, HTMLElementH1, HTMLElementH2, HTMLElementH3,
   HTMLElementH4, HTMLElementH5, HTMLElementH6, HTMLElementLabel, HTMLElementSpan,
   HTMLElementDiv, HTMLElementP, HTMLElementLegend, HTMLElementTitle]

/-- The `contains` helper of `analyzer_service.go`. -/
def contains (slice : List String) (item : String) : Bool :=
  slice.any (fun s => s = item)

/-! ## Links, the parser instance state, and the probing transport -/

/-- `services.Link`. -/
structure Link where
  URL : String
  IsInternal : Bool
  IsAccessible : Bool
  deriving DecidableEq

/-- The outbound HTTP transport used for link probes
(`httpClient.GetWithContext` inside `checkHTTPLink`): `none` models a
transport error, `some code` a response with that status code. -/
abbrev Transport := String → Option Nat

/-- The mutable state of an `htmlParser` instance: the `urlCache` field
(populated once per instance by `NewHTMLParser` and never reset), together
with the trace of transport calls issued so far (the trace is a proof
artifact recording probe behaviour; it is not a field of the Go struct). -/
structure ParserState where
  urlCache : List (String × Bool)
  calls : List String
  deriving DecidableEq

/-- The state of a freshly constructed parser (`NewHTMLParser`). -/
def initialParserState : ParserState := { urlCache := [], calls := [] }

/-- Association-list lookup modelling a read of the `urlCache` map. -/
def cacheLookup (cache : List (String × Bool)) (url : String) : Option Bool :=
  match cache with
  | [] => none
  | (k, v) :: rest => if k = url then some v else cacheLookup rest url

/-- `htmlParser.checkHTTPLink`: build the request (request construction
fails without a network call when the URL does not parse), issue the probe,
and accept statuses 200–399.  The second component records whether a
transport call was made. -/
def checkHTTPLink (tr : Transport) (url : String) : Bool × Bool :=
  match goURLParse url with
  | .error _ => (false, false)
  | .ok _ =>
    match tr url with
    | none => (false, true)
    | some status => (decide (200 ≤ status ∧ status < 400), true)

/-- The cache-check / probe / cache-store tail of
`htmlParser.checkLinkAccessibility` (the code after `fullURL` has been
resolved). -/
def probeWithCache (tr : Transport) (fullURL : String) (st : ParserState) : Bool × ParserState :=
  match cacheLookup st.urlCache fullURL with
  | some accessible => (accessible, st)
  | none =>
    let r := checkHTTPLink tr fullURL
    (r.1, { urlCache := (fullURL, r.1) :: st.urlCache,
            calls := if r.2 then st.calls ++ [fullURL] else st.calls })

/-- `htmlParser.checkLinkAccessibility`. -/
def checkLinkAccessibility (tr : Transport) (href baseURL : String) (st : ParserState) :
    Bool × ParserState :=
  if strStartsWith href "#" ∨ strStartsWith href "?" ∨
     strStartsWith href "mailto:" ∨ strStartsWith href "tel:" then
    (true, st)
  else
    match goURLParse href with
    | .error _ => (false, st)
    | .ok hrefURL =>
      if hrefURL.Scheme = "" ∧ hrefURL.Host = "" then
        match goURLParse baseURL with
        | .error _ => (false, st)
        | .ok baseURLParsed =>
          probeWithCache tr (GoURL.render (baseURLParsed.resolveReference hrefURL)) st
      else if strStartsWith href "/" then
        match goURLParse baseURL with
        | .error _ => (false, st)
        | .ok baseURLParsed =>
          probeWithCache tr
            (GoURL.render { Scheme := baseURLParsed.Scheme, Host := baseURLParsed.Host, Path := href }) st
      else
        if ¬contains SupportedSchemes hrefURL.Scheme then (true, st)
        else probeWithCache tr href st

/-- `htmlParser.isInternalLink`. -/
def isInternalLink (href baseURL : String) : Bool :=
  if strStartsWith href "#" ∨ strStartsWith href "?" then true
  else if strStartsWith href "/" then true
  else
    match goURLParse href with
    | .error _ => false
    | .ok hrefURL =>
      if hrefURL.Scheme = "" ∧ hrefURL.Host = "" then true
      else
        match goURLParse baseURL with
        | .error _ => false
        | .ok baseURLParsed => hrefURL.Host = baseURLParsed.Host

/-- The attribute scan of `extractLinks`: the first attribute whose key is
`href` and whose value is non-empty (the Go loop `break`s there). -/
def firstNonEmptyHref : List HAttr → Option String
  | [] => none
  | a :: rest =>
    if a.Key = HTMLAttrHref ∧ a.Val ≠ "" then some a.Val
    else firstNonEmptyHref rest

mutual
/-- `htmlParser.extractLinks`'s `traverse`, on one node: collect one `Link`
per `<a>` element carrying a non-empty `href`, threading the parser's cache
state through the accessibility checks; recursion stops below
`MaxHTMLDepth`. -/
def extractLinksNode (tr : Transport) (baseURL : String) : HNode → Nat → ParserState →
    List Link × ParserState
  | .mk kind data attr children, depth, st =>
    if depth > MaxHTMLDepth then ([], st)
    else
      let hereSt :=
        if kind = .element ∧ data = HTMLElementA then
          match firstNonEmptyHref attr with
          | some hrefVal =>
            let acc := checkLinkAccessibility tr hrefVal baseURL st
            ([{ URL := hrefVal, IsInternal := isInternalLink hrefVal baseURL,
                IsAccessible := acc.1 }], acc.2)
          | none => ([], st)
        else ([], st)
      let restSt := extractLinksForest tr baseURL children (depth + 1) hereSt.2
      (hereSt.1 ++ restSt.1, restSt.2)

/-- `extractLinks`'s sibling loop over a forest of children. -/
def extractLinksForest (tr : Transport) (baseURL : String) : HForest → Nat → ParserState →
    List Link × ParserState
  | .nil, _, st => ([], st)
  | .cons n f, depth, st =>
    let r1 := extractLinksNode tr baseURL n depth st
    let r2 := extractLinksForest tr baseURL f depth r1.2
    (r1.1 ++ r2.1, r2.2)
end

/-! ## HTML version detection

The Go code stores the doctype patterns in a map literal and scans it with
`range`; Go map iteration order is unspecified, so the scan order is modelled
as an explicit list parameter `order` ranging over the permutations of the
literal's entries. -/

/-- The entries of the `doctypeMap` literal of `extractHTMLVersion`, in
source-text order. -/
def doctypePairs : List (String × String) :=
  [("html 4.01 strict", "HTML 4.01 Strict"),
   ("html 4.01//strict", "HTML 4.01 Strict"),
   ("html 4.01 transitional", "HTML 4.01 Transitional"),
   ("html 4.01//transitional", "HTML 4.01 Transitional"),
   ("html 4.01 frameset", "HTML 4.01 Frameset"),
   ("html 4.01//frameset", "HTML 4.01 Frameset"),
   ("html 4.0", "HTML 4.0"),
   ("html 3.2", "HTML 3.2"),
   ("html 2.0", "HTML 2.0"),
   ("xhtml 1.1", "XHTML 1.1"),
   ("xhtml 1.0 strict", "XHTML 1.0 Strict"),
   ("xhtml 1.0//strict", "XHTML 1.0 Strict"),
   ("xhtml 1.0 transitional", "XHTML 1.0 Transitional"),
   ("xhtml 1.0//transitional", "XHTML 1.0 Transitional"),
   ("xhtml 1.0 frameset", "XHTML 1.0 Frameset"),
   ("xhtml 1.0//frameset", "XHTML 1.0 Frameset"),
   ("xhtml basic", "XHTML Basic"),
   ("xhtml mobile", "XHTML Mobile Profile"),
   ("xhtml", "XHTML"),
   ("html", "HTML")]

/-- The `range` scan over `doctypeMap` inside `findDoctype`: first pattern
(in iteration order) contained in the lowercased doctype text wins. -/
def matchDoctype (order : List (String × String)) (doctype : String) : String :=
  match order.find? (fun pv => strContains doctype pv.1) with
  | some pv => pv.2
  | none => ""

mutual
/-- `extractHTMLVersion`'s `findDoctype` on one node. -/
def findDoctypeNode (order : List (String × String)) : HNode → String
  | .mk kind data _ children =>
    let r := if kind = .doctype then matchDoctype order (strToLower data) else ""
    if r ≠ "" then r else findDoctypeForest order children

/-- `findDoctype`'s child loop. -/
def findDoctypeForest (order : List (String × String)) : HForest → String
  | .nil => ""
  | .cons n f =>
    let r := findDoctypeNode order n
    if r ≠ "" then r else findDoctypeForest order f
end

def html5Elements : List String :=
  ["article", "aside", "audio", "canvas", "datalist", "details", "embed", "figcaption",
   "figure", "footer", "header", "hgroup", "keygen", "mark", "meter", "nav",
   "output", "progress", "rp", "rt", "ruby", "section", "source", "summary",
   "time", "track", "video", "wbr"]

def html5InputTypes : List String :=
  [LinkTypeEmail, LinkTypeURL, LinkTypeTel, LinkTypeSearch,
   "number", "range", "date", "time", "datetime", "datetime-local", "month",
   "week", "color"]

def html5Attributes : List String :=
  ["contenteditable", "draggable", "hidden", "spellcheck"]

mutual
/-- `htmlParser.hasHTML5Features`'s `traverse` (the three membership tables
are Go bool-valued map literals; only membership is ever read, so lists model
them faithfully). -/
def hasHTML5FeaturesNode : HNode → Nat → Bool
  | .mk kind data attr children, depth =>
    if depth > MaxHTMLDepth then false
    else
      (kind = .element &&
        (html5Elements.contains data ||
         (data = "input" && attr.any (fun a => a.Key = "type" && html5InputTypes.contains a.Val)) ||
         attr.any (fun a => html5Attributes.contains a.Key)))
      || hasHTML5FeaturesForest children (depth + 1)

def hasHTML5FeaturesForest : HForest → Nat → Bool
  | .nil, _ => false
  | .cons n f, depth => hasHTML5FeaturesNode n depth || hasHTML5FeaturesForest f depth
end

/-- `htmlParser.extractHTMLVersion`, with the map iteration order as the
`order` parameter. -/
def extractHTMLVersion (order : List (String × String)) (doc : HNode) : String :=
  let version := findDoctypeNode order doc
  if version = "" then
    if hasHTML5FeaturesNode doc 0 then "HTML5" else "Unknown/No DOCTYPE"
  else version

/-! ## Title and headings -/

mutual
/-- `extractTitle`'s `findTitle` on one node: a `<title>` whose first child
is a text node answers its trimmed text; otherwise the children are
scanned. -/
def findTitleNode : HNode → String
  | .mk kind data _ children =>
    if kind = .element ∧ data = HTMLElementTitle then
      match children.firstChild with
      | some c => if c.kind = .text then trimSpace c.data else findTitleForest children
      | none => findTitleForest children
    else findTitleForest children

/-- `findTitle`'s child loop (a child's empty answer is skipped). -/
def findTitleForest : HForest → String
  | .nil => ""
  | .cons n f =>
    let t := findTitleNode n
    if t ≠ "" then t else findTitleForest f
end

/-- One `headings[n.Data]++` update; the Go map is modelled as an
association list in first-insertion order (a canonical representation of the
map's contents). -/
def bumpCount (m : List (String × Nat)) (key : String) : List (String × Nat) :=
  match m with
  | [] => [(key, 1)]
  | (k, v) :: rest => if k = key then (k, v + 1) :: rest else (k, v) :: bumpCount rest key

mutual
/-- `extractHeadings`'s `traverse`. -/
def extractHeadingsNode : HNode → Nat → List (String × Nat) → List (String × Nat)
  | .mk kind data _ children, depth, m =>
    if depth > MaxHTMLDepth then m
    else
      let m1 :=
        if kind = .element ∧
           (data = HTMLElementH1 ∨ data = HTMLElementH2 ∨ data = HTMLElementH3 ∨
            data = HTMLElementH4 ∨ data = HTMLElementH5 ∨ data = HTMLElementH6) then
          bumpCount m data
        else m
      extractHeadingsForest children (depth + 1) m1

def extractHeadingsForest : HForest → Nat → List (String × Nat) → List (String × Nat)
  | .nil, _, m => m
  | .cons n f, depth, m => extractHeadingsForest f depth (extractHeadingsNode n depth m)
end

/-! ## Login-form detection -/

/-- Keys of the `loginKeywords` map literal of `hasLoginForm`, in source-text
order (the Go code only disjoins matches over a `range` scan, so a list is an
order-insensitive faithful model of the map). -/
def loginKeywords : List String :=
  ["login", "signin", "sign-in", "sign_in", "log-in", "log_in",
   "sign in", "log in", "logon", "log on",
   "password", "passwd", "pwd", "pass",
   "username", "userid", "user_id",
   "authenticate", "authentication",
   "credentials", "credential",
   "forgot password", "reset password", "password reset",
   "remember me", "stay logged in"]

/-- Keys of the `loginInputNames` map literal of `hasLoginForm`. -/
def loginInputNames : List String :=
  ["username", "userid", "user_id",
   "password", "passwd", "pwd", "pass", "passphrase",
   "login", "signin", "authenticate",
   "remember", "remember_me", "stay_logged_in"]

/-- The attribute scan of `hasLoginForm`'s `input` branch: the loop with a
`switch` assigns the lowercased value of each matching key, so a later
duplicate attribute overwrites an earlier one. -/
def inputAttrValue (attrs : List HAttr) (key : String) : String :=
  attrs.foldl (fun acc a => if a.Key = key then strToLower a.Val else acc) ""

/-- The `inputType == "password"` test of `hasLoginForm` on one node. -/
def isPasswordInput (n : HNode) : Bool :=
  n.kind = .element && n.data = "input" && inputAttrValue n.attr "type" = "password"

/-- The per-node conditions under which `hasLoginForm`'s `traverse` sets
`hasLoginContext`, combined in source order: input name/id/class tokens, form
attribute keywords, button/anchor attribute keywords, and first-child text of
the accessibility element set. -/
def isLoginSignal (n : HNode) : Bool :=
  n.kind = .element &&
    ((n.data = "input" && loginInputNames.any (fun nm =>
        strContains (inputAttrValue n.attr "name") nm ||
        strContains (inputAttrValue n.attr "id") nm ||
        strContains (inputAttrValue n.attr "class") nm)) ||
     (n.data = "form" && n.attr.any (fun a =>
        (a.Key = "action" ∨ a.Key = "id" ∨ a.Key = "class" ∨ a.Key = "name") &&
        loginKeywords.any (fun kw => strContains (strToLower a.Val) kw))) ||
     ((n.data = HTMLElementButton || n.data = HTMLElementA) && n.attr.any (fun a =>
        (a.Key = "id" ∨ a.Key = "class" ∨ a.Key = "name" ∨ a.Key = "value") &&
        loginKeywords.any (fun kw => strContains (strToLower a.Val) kw))) ||
     (contains AccessibilityElements n.data &&
        (match n.children.firstChild with
         | some c => c.kind = .text && loginKeywords.any (fun kw =>
             strContains (strToLower (trimSpace c.data)) kw)
         | none => false)))

mutual
/-- `hasLoginForm`'s `traverse`, returning the pair of flags
`(hasPasswordField, hasLoginContext)` accumulated below this node. -/
def loginScanNode : HNode → Nat → Bool × Bool
  | .mk kind data attr children, depth =>
    if depth > MaxHTMLDepth then (false, false)
    else
      let rest := loginScanForest children (depth + 1)
      (isPasswordInput (.mk kind data attr children) || rest.1,
       isLoginSignal (.mk kind data attr children) || rest.2)

def loginScanForest : HForest → Nat → Bool × Bool
  | .nil, _ => (false, false)
  | .cons n f, depth =>
    let r1 := loginScanNode n depth
    let r2 := loginScanForest f depth
    (r1.1 || r2.1, r1.2 || r2.2)
end

/-- `htmlParser.hasLoginForm`. -/
def hasLoginForm (doc : HNode) : Bool :=
  let flags := loginScanNode doc 0
  flags.1 && flags.2

/-! ## The parser entry point `htmlParser.Parse` -/

/-- `services.ParsedHTML`. -/
structure ParsedHTML where
  HTMLVersion : String
  Title : String
  Headings : List (String × Nat)
  Links : List Link
  HasLoginForm : Bool
  ContentLength : Nat
  deriving DecidableEq

/-- `htmlParser.Parse`.  `htmlParse` is the external `html.Parse` of
`golang.org/x/net/html` (error-tolerant, modelled as a total oracle from
content to a node tree); `patOrder` is the doctype-map iteration order of
this call; the parser instance's cache state is threaded through. -/
def htmlParserParse (htmlParse : String → HNode) (patOrder : List (String × String))
    (tr : Transport) (content baseURL : String) (st : ParserState) :
    Except String ParsedHTML × ParserState :=
  if content = "" then (.error "HTML content cannot be empty", st)
  else if content.data.length > MaxContentSize then (.error "HTML content too large", st)
  else
    let doc := htmlParse content
    let linksR := extractLinksNode tr baseURL doc 0 st
    (.ok { HTMLVersion := extractHTMLVersion patOrder doc,
           Title := findTitleNode doc,
           Headings := extractHeadingsNode doc 0 [],
           Links := linksR.1,
           HasLoginForm := hasLoginForm doc,
           ContentLength := content.data.length }, linksR.2)

/-! ## Link aggregation (`analyzeLinkAccessibility`) and the orchestrator -/

/-- `entities.LinkAnalysis`. -/
structure LinkAnalysis where
  Internal : Nat
  External : Nat
  Inaccessible : Nat
  BrokenLinks : List String
  ExternalHosts : List String
  deriving DecidableEq

def emptyLinkAnalysis : LinkAnalysis :=
  { Internal := 0, External := 0, Inaccessible := 0, BrokenLinks := [], ExternalHosts := [] }

/-- The mutex-protected body of one goroutine of
`analyzerService.analyzeLinkAccessibility`: count the link, record a fresh
external host, and record an inaccessible link.  The second component is the
`hostMap` deduplication set. -/
def processLink (acc : LinkAnalysis × List String) (l : Link) : LinkAnalysis × List String :=
  let step1 :=
    if l.IsInternal then ({ acc.1 with Internal := acc.1.Internal + 1 }, acc.2)
    else
      let a := { acc.1 with External := acc.1.External + 1 }
      match goURLParse l.URL with
      | .ok linkU =>
        if ¬acc.2.contains linkU.Host then
          ({ a with ExternalHosts := a.ExternalHosts ++ [linkU.Host] }, linkU.Host :: acc.2)
        else (a, acc.2)
      | .error _ => (a, acc.2)
  if ¬l.IsAccessible then
    let a := step1.1
    ({ a with Inaccessible := a.Inaccessible + 1, BrokenLinks := a.BrokenLinks ++ [l.URL] }, step1.2)
  else step1

/-- `analyzerService.analyzeLinkAccessibility` on an uncancelled context:
every goroutine runs to completion, and the mutex serialises their bodies in
some completion order; `order` is that serialisation (a permutation of the
extracted links). -/
def analyzeLinkAccessibility (order : List Link) : LinkAnalysis :=
  (order.foldl processLink (emptyLinkAnalysis, [])).1

/-- `entities.AnalysisResult` (the `Metadata` field is never set by the
analyzer and is omitted; `LoadTime` is a wall-clock reading modelled as an
abstract `Nat`). -/
structure AnalysisResult where
  HTMLVersion : String := ""
  Title : String := ""
  Headings : List (String × Nat) := []
  Links : LinkAnalysis := emptyLinkAnalysis
  HasLoginForm : Bool := false
  LoadTime : Nat := 0
  ContentLength : Nat := 0
  StatusCode : Nat := 0
  deriving DecidableEq

/-- `analyzerService.ValidateURL`. -/
def ValidateURL (targetURL : String) : Except String Unit :=
  if targetURL = "" then .error "URL cannot be empty"
  else if targetURL.data.length > MaxURLLength then .error "URL too long"
  else
    match goURLParse targetURL with
    | .error _ => .error "invalid URL format"
    | .ok u =>
      if u.Scheme = "" ∨ u.Host = "" then .error "URL must include scheme and host"
      else if ¬contains SupportedSchemes u.Scheme then .error "unsupported scheme"
      else if strContains (goHostname u.Host) ".." then .error "invalid hostname format"
      else .ok ()

/-- `analyzerService.getHTTPStatusMessage`. -/
def getHTTPStatusMessage (statusCode : Nat) : String :=
  if statusCode = 400 then "bad request"
  else if statusCode = 401 then "authentication required"
  else if statusCode = 403 then "website blocked access (likely bot protection)"
  else if statusCode = 404 then "page not found"
  else if statusCode = 429 then "rate limit exceeded"
  else if statusCode = 500 ∨ statusCode = 502 ∨ statusCode = 503 ∨ statusCode = 504 then "server error"
  else "HTTP " ++ toString statusCode

/-- Outcome of the orchestrator's own fetch
(`httpClient.GetWithContext(requestCtx, targetURL)`): a classified transport
failure, or a response with status code and body.  `createDetailedError`'s
classification only rewrites the failure message and is modelled as passing
the classified message through. -/
inductive FetchResult where
  | failure (msg : String)
  | success (status : Nat) (body : String)

/-- `analyzerService.AnalyzeURL` on an uncancelled context.  Runtime inputs
that Go leaves to the environment appear as explicit parameters: `fetch` is
the orchestrator's HTTP client, `htmlParse` the external HTML parser,
`patOrder` the doctype-map iteration order, `sched` the goroutine completion
order of the link-aggregation fan-in (a permutation of its argument when the
context is not cancelled), `tr` the link-probe transport, and `elapsed` the
wall-clock reading used for `LoadTime`.  Returns the Go pair
(result, error) plus the parser instance's state after the call. -/
def AnalyzeURL (fetch : String → FetchResult) (htmlParse : String → HNode)
    (patOrder : List (String × String)) (sched : List Link → List Link) (tr : Transport)
    (elapsed : Nat) (targetURL : String) (st : ParserState) :
    (Option AnalysisResult × Option String) × ParserState :=
  match ValidateURL targetURL with
  | .error e => ((none, some ("URL validation failed: " ++ e)), st)
  | .ok _ =>
    match fetch targetURL with
    | .failure msg => ((none, some msg), st)
    | .success status body =>
      if status ≠ 200 then
        ((some { StatusCode := status, LoadTime := elapsed },
          some ("HTTP " ++ toString status ++ ": " ++ getHTTPStatusMessage status)), st)
      else
        let content := String.mk (body.data.take MaxContentSize)
        match htmlParserParse htmlParse patOrder tr content targetURL st with
        | (.error e, st2) => ((none, some ("failed to parse HTML: " ++ e)), st2)
        | (.ok parsed, st2) =>
          let linkAnalysis := analyzeLinkAccessibility (sched parsed.Links)
          (((some { HTMLVersion := parsed.HTMLVersion, Title := parsed.Title,
                    Headings := parsed.Headings, Links := linkAnalysis,
                    HasLoginForm := parsed.HasLoginForm, LoadTime := elapsed,
                    ContentLength := parsed.ContentLength, StatusCode := status }), none), st2)

/-! ## Measurement definitions for the claims

These definitions state the quantities the claims quantify over (the number
of `<a href>` elements met by the depth-bounded traversal, depth-bounded
existence of a node, faithfulness of a probe cache); the traversal shape is
the one shared by all the analyzer's depth-guarded traversals. -/

mutual
/-- The `href` values (first non-empty `href` attribute) of the `<a>`
elements encountered by the depth-bounded traversal, in document order. -/
def anchorHrefsNode : HNode → Nat → List String
  | .mk kind data attr children, depth =>
    if depth > MaxHTMLDepth then []
    else
      (if kind = .element ∧ data = HTMLElementA then
         match firstNonEmptyHref attr with
         | some v => [v]
         | none => []
       else []) ++ anchorHrefsForest children (depth + 1)

def anchorHrefsForest : HForest → Nat → List String
  | .nil, _ => []
  | .cons n f, depth => anchorHrefsNode n depth ++ anchorHrefsForest f depth
end

mutual
/-- Depth-bounded existence of a node satisfying `p`, with the analyzer's
traversal shape (a node is visible at `depth ≤ MaxHTMLDepth`, its children
are visited at `depth + 1`). -/
def existsNodeWithin (p : HNode → Bool) : HNode → Nat → Bool
  | .mk kind data attr children, depth =>
    if depth > MaxHTMLDepth then false
    else p (.mk kind data attr children) || existsForestWithin p children (depth + 1)

def existsForestWithin (p : HNode → Bool) : HForest → Nat → Bool
  | .nil, _ => false
  | .cons n f, depth => existsNodeWithin p n depth || existsForestWithin p f depth
end

/-- A cache is faithful to a transport when every entry records exactly what
probing that URL through the transport returns.  Any cache populated only by
`probeWithCache` runs against `tr` is faithful to `tr`. -/
def cacheFaithful (tr : Transport) (cache : List (String × Bool)) : Prop :=
  ∀ url b, cacheLookup cache url = some b → b = (checkHTTPLink tr url).1

/-- The states reachable by the probing code: the probe trace is duplicate
free and every probed URL has been cached. -/
def probeInv (st : ParserState) : Prop :=
  st.calls.Nodup ∧ ∀ u ∈ st.calls, cacheLookup st.urlCache u ≠ none

/-- A link contributes host `h` to `ExternalHosts`: it is external and its
raw URL parses with that host. -/
def linkYieldsHost (l : Link) (h : String) : Prop :=
  l.IsInternal = false ∧ ∃ u, goURLParse l.URL = .ok u ∧ u.Host = h

/-- The accessibility verdict of `checkLinkAccessibility` as a pure function
of the href, base URL and transport — the value the stateful code computes
whenever its cache is faithful to the transport (same branch structure, with
the cache consultation replaced by a direct probe). -/
def pureLinkAccessible (tr : Transport) (href baseURL : String) : Bool :=
  if strStartsWith href "#" ∨ strStartsWith href "?" ∨
     strStartsWith href "mailto:" ∨ strStartsWith href "tel:" then
    true
  else
    match goURLParse href with
    | .error _ => false
    | .ok hrefURL =>
      if hrefURL.Scheme = "" ∧ hrefURL.Host = "" then
        match goURLParse baseURL with
        | .error _ => false
        | .ok baseURLParsed =>
          (checkHTTPLink tr (GoURL.render (baseURLParsed.resolveReference hrefURL))).1
      else if strStartsWith href "/" then
        match goURLParse baseURL with
        | .error _ => false
        | .ok baseURLParsed =>
          (checkHTTPLink tr
            (GoURL.render { Scheme := baseURLParsed.Scheme, Host := baseURLParsed.Host,
                            Path := href })).1
      else
        if ¬contains SupportedSchemes hrefURL.Scheme then true
        else (checkHTTPLink tr href).1


/-! ## Concrete fixtures used to instantiate the claims -/

/-- The node tree of a page with three `<a>` elements: one whose first
`href` attribute is empty and second is `/x` (the first non-empty one wins),
one external link, and one with no `href` at all (no link record). -/
def c1Doc : HNode :=
  .mk .document "" []
    (.cons (.mk .element "html" []
      (.cons (.mk .element "body" []
        (.cons (.mk .element "a" [⟨"href", ""⟩, ⟨"href", "/x"⟩] .nil)
        (.cons (.mk .element "a" [⟨"href", "http://other.example/y"⟩] .nil)
        (.cons (.mk .element "a" [] .nil) .nil)))) .nil)) .nil)

/-- A document whose doctype declaration text is `html 4.01 strict`
(matched, as the code lower-cases it, by the patterns `html 4.01 strict`,
`html 4.0` and `html` of the doctype table). -/
def c2Doc : HNode :=
  .mk .document "" []
    (.cons (.mk .doctype "html 4.01 strict" [] .nil)
    (.cons (.mk .element "html" [] .nil) .nil))

/-- A doctype-map iteration order that reaches the bare `html` pattern
first: a permutation of the same entries. -/
def c2PatOrder : List (String × String) :=
  ("html", "HTML") :: doctypePairs.dropLast

/-- An empty document node (what the HTML parser oracle returns where the
tree's contents are irrelevant). -/
def emptyDocNode : HNode := .mk .document "" [] .nil

/-- Login form with a password input whose only context signal is its own
`name="password"`. -/
def c4LoginDoc : HNode :=
  .mk .document "" []
    (.cons (.mk .element "html" []
      (.cons (.mk .element "body" []
        (.cons (.mk .element "form" [⟨"action", "/submit"⟩]
          (.cons (.mk .element "input" [⟨"type", "password"⟩, ⟨"name", "password"⟩] .nil)
            .nil)) .nil)) .nil)) .nil)

/-- A password input with no name/id/class and no other context keyword
anywhere. -/
def c4PwOnlyDoc : HNode :=
  .mk .document "" []
    (.cons (.mk .element "html" []
      (.cons (.mk .element "body" []
        (.cons (.mk .element "form" [⟨"action", "/submit"⟩]
          (.cons (.mk .element "input" [⟨"type", "password"⟩] .nil) .nil)) .nil)) .nil)) .nil)

/-- Context keywords (a login form action and a username field) but no
password input. -/
def c4CtxOnlyDoc : HNode :=
  .mk .document "" []
    (.cons (.mk .element "html" []
      (.cons (.mk .element "body" []
        (.cons (.mk .element "form" [⟨"action", "/login"⟩]
          (.cons (.mk .element "input" [⟨"type", "text"⟩, ⟨"name", "username"⟩] .nil)
            .nil)) .nil)) .nil)) .nil)

/-- A page with a single probeable external link, used to observe the
parser instance's cache across two `Parse` invocations. -/
def c8Doc : HNode :=
  .mk .document "" []
    (.cons (.mk .element "html" []
      (.cons (.mk .element "body" []
        (.cons (.mk .element "a" [⟨"href", "http://ext.example/x"⟩] .nil) .nil)) .nil)) .nil)

/-- Two inaccessible external links whose aggregation order is observable in
`BrokenLinks`. -/
def c9LinkA : Link := { URL := "http://a.example/1", IsInternal := false, IsAccessible := false }

def c9LinkB : Link := { URL := "http://b.example/2", IsInternal := false, IsAccessible := false }

/-! ## Supporting lemmas -/

theorem strToLower_empty : strToLower "" = "" := rfl

theorem strStartsWith_slash (s : String) :
    strStartsWith s "/" = true ↔ ∃ t, s.data = '/' :: t := by
  unfold strStartsWith
  cases h : s.data with
  | nil => simp [List.isPrefixOf]
  | cons x xs =>
    simp only [List.isPrefixOf, List.isPrefixOf_nil_left, Bool.and_true]
    constructor
    · intro hx
      exact ⟨xs, by simpa using (beq_iff_eq.mp (by simpa using hx)).symm⟩
    · rintro ⟨t, ht⟩
      obtain ⟨hx, -⟩ := List.cons.injEq .. ▸ ht
      simp [hx]

theorem listSplitFirst_some_append (c : Char) (l pre post : List Char)
    (h : listSplitFirst c l = some (pre, post)) : l = pre ++ c :: post := by
  induction l generalizing pre post with
  | nil => simp [listSplitFirst] at h
  | cons x xs ih =>
    unfold listSplitFirst at h
    by_cases hx : x = c
    · simp [hx] at h
      obtain ⟨h1, h2⟩ := h
      simp [hx, ← h1, ← h2]
    · simp only [hx, if_false] at h
      cases hrec : listSplitFirst c xs with
      | none => rw [hrec] at h; simp at h
      | some pr =>
        rw [hrec] at h
        simp only [Option.some.injEq] at h
        obtain ⟨h1, h2⟩ : x :: pr.1 = pre ∧ pr.2 = post := by
          constructor
          · exact congrArg Prod.fst h
          · exact congrArg Prod.snd h
        rw [← h1, ← h2]
        simpa using ih pr.1 pr.2 (by simp [hrec])

theorem getScheme_head_slash (s : String) (t : List Char) (ht : s.data = '/' :: t) :
    getScheme s = .ok ("", s) := by
  unfold getScheme
  rw [ht]
  rw [getSchemeAux, if_neg (by decide), if_neg (by decide), if_neg (by decide)]

theorem goParseNoFrag_slash_scheme (s : String) (u : GoURL) (t : List Char)
    (ht : s.data = '/' :: t) (hok : goParseNoFrag s = .ok u) : u.Scheme = "" := by
  unfold goParseNoFrag at hok
  by_cases hc : containsCTLByte s
  · simp [hc] at hok
  · rw [if_neg (by simp [hc]), getScheme_head_slash s t ht] at hok
    simp only [strToLower_empty] at hok
    repeat' split at hok
    all_goals
      first
        | (simp only [Except.ok.injEq] at hok; subst hok; rfl)
        | simp at hok

theorem goURLParse_slash_scheme (s : String) (u : GoURL)
    (hs : strStartsWith s "/" = true) (hok : goURLParse s = .ok u) : u.Scheme = "" := by
  obtain ⟨t, ht⟩ := (strStartsWith_slash s).mp hs
  unfold goURLParse at hok
  cases hsp : listSplitFirst '#' s.data with
  | none =>
    simp only [hsp] at hok
    cases hpf : goParseNoFrag s with
    | error e => rw [hpf] at hok; simp at hok
    | ok u2 =>
      rw [hpf] at hok
      simp at hok
      subst hok
      exact goParseNoFrag_slash_scheme s u2 t ht hpf
  | some pr =>
    obtain ⟨pre, post⟩ := pr
    have happ := listSplitFirst_some_append '#' s.data pre post hsp
    simp only [hsp] at hok
    cases hpre : pre with
    | nil =>
      rw [hpre] at happ
      rw [ht] at happ
      simp at happ
    | cons p ps =>
      have hp : p = '/' := by
        rw [hpre, ht] at happ
        simp only [List.cons_append, List.cons.injEq] at happ
        exact happ.1.symm
      cases hpf : goParseNoFrag (String.mk pre) with
      | error e => rw [hpf] at hok; simp at hok
      | ok u2 =>
        simp only [hpf] at hok
        have hpredata : (String.mk pre).data = '/' :: ps := by
          show pre = '/' :: ps
          rw [hpre, hp]
        have hsch2 : u2.Scheme = "" :=
          goParseNoFrag_slash_scheme (String.mk pre) u2 ps hpredata hpf
        split at hok
        · simp only [Except.ok.injEq] at hok
          subst hok
          exact hsch2
        · split at hok
          · simp only [Except.ok.injEq] at hok
            subst hok
            exact hsch2
          · simp at hok

theorem goURLParse_scheme_ne_slash (s : String) (u : GoURL)
    (hok : goURLParse s = .ok u) (hsch : u.Scheme ≠ "") : strStartsWith s "/" = false := by
  cases h : strStartsWith s "/" with
  | false => rfl
  | true => exact absurd (goURLParse_slash_scheme s u h hok) hsch

/-! ## Claim C5 -/

/-- C5: `isInternalLink` returns true for hrefs starting with `/`, `#` or
`?`; true when the parsed href has neither scheme nor host; otherwise true
exactly when the parsed href's host equals the parsed base URL's host (so
absolute hrefs with a differing host, and scheme-only hrefs such as
`mailto:`/`tel:` whose host is empty while the base host is not, are
external); and false, without crashing, when the href fails to parse. -/
theorem isInternalLink_spec (href baseURL : String) :
    (strStartsWith href "/" = true ∨ strStartsWith href "#" = true ∨
       strStartsWith href "?" = true →
      isInternalLink href baseURL = true) ∧
    (∀ u, goURLParse href = .ok u → u.Scheme = "" → u.Host = "" →
      isInternalLink href baseURL = true) ∧
    (∀ u bu, strStartsWith href "#" = false → strStartsWith href "?" = false →
      strStartsWith href "/" = false →
      goURLParse href = .ok u → ¬(u.Scheme = "" ∧ u.Host = "") →
      goURLParse baseURL = .ok bu →
      (isInternalLink href baseURL = true ↔ u.Host = bu.Host)) ∧
    (∀ e, strStartsWith href "#" = false → strStartsWith href "?" = false →
      strStartsWith href "/" = false →
      goURLParse href = .error e → isInternalLink href baseURL = false) := by
  refine ⟨?_, ?_, ?_, ?_⟩
  · intro h
    unfold isInternalLink
    by_cases h1 : strStartsWith href "#" = true ∨ strStartsWith href "?" = true
    · simp [h1]
    · rcases h with h | h | h
      · simp [h1, h]
      · exact absurd (Or.inl h) h1
      · exact absurd (Or.inr h) h1
  · intro u hp hsch hhost
    unfold isInternalLink
    by_cases h1 : strStartsWith href "#" = true ∨ strStartsWith href "?" = true
    · simp [h1]
    · by_cases h2 : strStartsWith href "/" = true
      · simp [h1, h2]
      · simp only [h1, if_false, h2, hp]
        simp [hsch, hhost]
  · intro u bu h1 h2 h3 hp hne hb
    unfold isInternalLink
    simp [h1, h2, h3, hp, hne, hb]
  · intro e h1 h2 h3 hp
    unfold isInternalLink
    simp [h1, h2, h3, hp]

/-- Witness for C5: a concrete absolute href whose host differs from the
base URL's host is classified external. -/
theorem isInternalLink_spec_witness :
    isInternalLink "http://a.example/p" "http://b.example/" = false := by
  have h := (isInternalLink_spec "http://a.example/p" "http://b.example/").2.2.1
    { Scheme := "http", Host := "a.example", Path := "/p" }
    { Scheme := "http", Host := "b.example", Path := "/" }
    (by decide) (by decide) (by decide) rfl (by decide) rfl
  cases hres : isInternalLink "http://a.example/p" "http://b.example/" with
  | false => rfl
  | true => exact absurd (h.mp hres) (by decide)

/-! ## Claim C6 -/

/-- C6: `checkLinkAccessibility` answers `true` with no transport call (the
parser state, including the probe trace, is returned unchanged) for every
href starting with `#`, `?`, `mailto:` or `tel:`, and for every href that
parses with a scheme other than `http`/`https`. -/
theorem checkLinkAccessibility_no_probe (tr : Transport) (href baseURL : String)
    (st : ParserState) :
    (strStartsWith href "#" = true ∨ strStartsWith href "?" = true ∨
       strStartsWith href "mailto:" = true ∨ strStartsWith href "tel:" = true →
      checkLinkAccessibility tr href baseURL st = (true, st)) ∧
    (∀ u, goURLParse href = .ok u → u.Scheme ≠ "" →
      contains SupportedSchemes u.Scheme = false →
      checkLinkAccessibility tr href baseURL st = (true, st)) := by
  constructor
  · intro h
    unfold checkLinkAccessibility
    rcases h with h | h | h | h <;> simp [h]
  · intro u hp hsch hsup
    unfold checkLinkAccessibility
    by_cases h1 : strStartsWith href "#" = true ∨ strStartsWith href "?" = true ∨
        strStartsWith href "mailto:" = true ∨ strStartsWith href "tel:" = true
    · simp [h1]
    · have hslash : strStartsWith href "/" = false := goURLParse_scheme_ne_slash href u hp hsch
      simp only [h1, if_false, hp]
      simp [hsch, hslash, hsup]

/-- Witness for C6: an `ftp://` link is reported accessible with no
transport call even when the transport would fail every probe. -/
theorem checkLinkAccessibility_no_probe_witness :
    checkLinkAccessibility (fun _ => none) "ftp://files.example/a" "http://base.example/"
      initialParserState = (true, initialParserState) :=
  (checkLinkAccessibility_no_probe (fun _ => none) "ftp://files.example/a"
      "http://base.example/" initialParserState).2
    { Scheme := "ftp", Host := "files.example", Path := "/a" }
    rfl (by decide) (by decide)

/-! ## Aggregation lemmas for `analyzeLinkAccessibility` -/

theorem processLink_counts (acc : LinkAnalysis × List String) (l : Link) :
    (processLink acc l).1.Internal = acc.1.Internal + (if l.IsInternal then 1 else 0) ∧
    (processLink acc l).1.External = acc.1.External + (if l.IsInternal then 0 else 1) ∧
    (processLink acc l).1.Inaccessible
      = acc.1.Inaccessible + (if l.IsAccessible then 0 else 1) ∧
    (processLink acc l).1.BrokenLinks
      = acc.1.BrokenLinks ++ (if l.IsAccessible then [] else [l.URL]) := by
  unfold processLink
  by_cases hi : l.IsInternal = true
  · by_cases ha : l.IsAccessible = true <;> simp [hi, ha]
  · cases hp : goURLParse l.URL with
    | ok u =>
      by_cases hseen : u.Host ∈ acc.2
      · by_cases ha : l.IsAccessible = true <;> simp [hi, hp, hseen, ha]
      · by_cases ha : l.IsAccessible = true <;> simp [hi, hp, hseen, ha]
    | error e => by_cases ha : l.IsAccessible = true <;> simp [hi, hp, ha]

theorem aggFold_spec (order : List Link) : ∀ acc : LinkAnalysis × List String,
    (order.foldl processLink acc).1.Internal
      = acc.1.Internal + order.countP (fun l => l.IsInternal) ∧
    (order.foldl processLink acc).1.External
      = acc.1.External + order.countP (fun l => !l.IsInternal) ∧
    (order.foldl processLink acc).1.Inaccessible
      = acc.1.Inaccessible + order.countP (fun l => !l.IsAccessible) ∧
    (order.foldl processLink acc).1.BrokenLinks
      = acc.1.BrokenLinks ++ (order.filter (fun l => !l.IsAccessible)).map Link.URL := by
  induction order with
  | nil => intro acc; simp
  | cons l rest ih =>
    intro acc
    simp only [List.foldl_cons]
    obtain ⟨h1, h2, h3, h4⟩ := ih (processLink acc l)
    obtain ⟨p1, p2, p3, p4⟩ := processLink_counts acc l
    refine ⟨?_, ?_, ?_, ?_⟩
    · rw [h1, p1]
      by_cases hi : l.IsInternal = true <;> simp [hi, List.countP_cons] <;> omega
    · rw [h2, p2]
      by_cases hi : l.IsInternal = true <;> simp [hi, List.countP_cons] <;> omega
    · rw [h3, p3]
      by_cases ha : l.IsAccessible = true <;> simp [ha, List.countP_cons] <;> omega
    · rw [h4, p4]
      by_cases ha : l.IsAccessible = true <;> simp [ha, List.filter_cons]

theorem countP_self_add_not (p : Link → Bool) (l : List Link) :
    l.countP p + l.countP (fun x => !p x) = l.length := by
  induction l with
  | nil => simp
  | cons a t ih =>
    by_cases hp : p a = true <;> simp [List.countP_cons, hp] <;> omega

mutual
/-- The URLs of the links collected by `extractLinks` are exactly the first
non-empty `href` values of the `<a>` elements met by the depth-bounded
traversal, in document order and independent of the probing state. -/
theorem extractLinks_urls_node (tr : Transport) (base : String) :
    ∀ (n : HNode) (depth : Nat) (st : ParserState),
    ((extractLinksNode tr base n depth st).1.map Link.URL = anchorHrefsNode n depth)
  | .mk kind data attr children, depth, st => by
    rw [extractLinksNode, anchorHrefsNode]
    by_cases hd : depth > MaxHTMLDepth
    · simp [hd]
    · simp only [hd, if_false]
      by_cases he : kind = NodeKind.element ∧ data = HTMLElementA
      · simp only [he, and_self, if_true]
        cases hh : firstNonEmptyHref attr with
        | some v =>
          simp [extractLinks_urls_forest tr base children (depth + 1) _]
        | none =>
          simp [extractLinks_urls_forest tr base children (depth + 1) _]
      · simp [he, extractLinks_urls_forest tr base children (depth + 1) _]

theorem extractLinks_urls_forest (tr : Transport) (base : String) :
    ∀ (f : HForest) (depth : Nat) (st : ParserState),
    ((extractLinksForest tr base f depth st).1.map Link.URL = anchorHrefsForest f depth)
  | .nil, depth, st => by simp [extractLinksForest, anchorHrefsForest]
  | .cons n f, depth, st => by
    rw [extractLinksForest, anchorHrefsForest]
    simp [extractLinks_urls_node tr base n depth st, extractLinks_urls_forest tr base f depth _]
end

/-! ## Claim C1 -/

/-- C1: on an uncancelled context (the aggregation order is a permutation of
the extracted links), `Internal + External` equals the number of `<a>`
elements with a non-empty `href` attribute met by the depth-bounded
traversal; and the extracted link records are exactly one per such element,
carrying its first non-empty `href` value, in document order. -/
theorem link_count_invariant (tr : Transport) (baseURL : String) (doc : HNode)
    (st : ParserState) (order : List Link)
    (hperm : order.Perm (extractLinksNode tr baseURL doc 0 st).1) :
    (analyzeLinkAccessibility order).Internal + (analyzeLinkAccessibility order).External
      = (anchorHrefsNode doc 0).length ∧
    (extractLinksNode tr baseURL doc 0 st).1.map Link.URL = anchorHrefsNode doc 0 := by
  have hmap := extractLinks_urls_node tr baseURL doc 0 st
  refine ⟨?_, hmap⟩
  obtain ⟨h1, h2, -, -⟩ := aggFold_spec order (emptyLinkAnalysis, [])
  unfold analyzeLinkAccessibility
  rw [h1, h2]
  have hlen : order.length = (anchorHrefsNode doc 0).length := by
    rw [← hmap, List.length_map]
    exact hperm.length_eq
  have hcount := countP_self_add_not (fun l => l.IsInternal) order
  simp only [emptyLinkAnalysis] at *
  omega

/-- Witness for C1 at a concrete document and a reordered aggregation. -/
theorem link_count_invariant_witness :
    (analyzeLinkAccessibility
        [{ URL := "http://other.example/y", IsInternal := false, IsAccessible := false },
         { URL := "/x", IsInternal := true, IsAccessible := false }]).Internal +
    (analyzeLinkAccessibility
        [{ URL := "http://other.example/y", IsInternal := false, IsAccessible := false },
         { URL := "/x", IsInternal := true, IsAccessible := false }]).External
      = (anchorHrefsNode c1Doc 0).length :=
  (link_count_invariant (fun _ => none) "http://site.example/" c1Doc initialParserState
    [{ URL := "http://other.example/y", IsInternal := false, IsAccessible := false },
     { URL := "/x", IsInternal := true, IsAccessible := false }] (by decide)).1

/-! ## Claim C10 -/

/-- C10: an href that fails URL parsing (and does not start with `#`, `?`,
`mailto:` or `tel:`) is reported inaccessible by `checkLinkAccessibility`
with the parser state (hence the probe trace) unchanged — no network call
and no panic — and every link marked inaccessible has its raw href recorded
in `BrokenLinks` by the aggregation. -/
theorem malformed_href_inaccessible (tr : Transport) (href baseURL : String)
    (st : ParserState) (e : String)
    (h1 : strStartsWith href "#" = false) (h2 : strStartsWith href "?" = false)
    (h3 : strStartsWith href "mailto:" = false) (h4 : strStartsWith href "tel:" = false)
    (hp : goURLParse href = .error e) :
    checkLinkAccessibility tr href baseURL st = (false, st) ∧
    (∀ (order : List Link) (l : Link), l ∈ order → l.IsAccessible = false →
      l.URL ∈ (analyzeLinkAccessibility order).BrokenLinks) := by
  constructor
  · unfold checkLinkAccessibility
    simp [h1, h2, h3, h4, hp]
  · intro order l hmem hacc
    unfold analyzeLinkAccessibility
    obtain ⟨-, -, -, h4'⟩ := aggFold_spec order (emptyLinkAnalysis, [])
    rw [h4']
    simp only [emptyLinkAnalysis, List.nil_append, List.mem_map]
    exact ⟨l, List.mem_filter.mpr ⟨hmem, by simp [hacc]⟩, rfl⟩

/-- Witness for C10: `cache_object:foo/bar` fails Go URL parsing (colon in
the first segment of a schemeless relative path), is reported inaccessible
without a probe, and lands in `BrokenLinks`. -/
theorem malformed_href_inaccessible_witness :
    checkLinkAccessibility (fun _ => some 200) "cache_object:foo/bar" "http://base.example/"
        initialParserState = (false, initialParserState) ∧
    "cache_object:foo/bar" ∈ (analyzeLinkAccessibility
        [{ URL := "cache_object:foo/bar", IsInternal := false, IsAccessible := false }]).BrokenLinks := by
  have h := malformed_href_inaccessible (fun _ => some 200) "cache_object:foo/bar"
    "http://base.example/" initialParserState
    "first path segment in URL cannot contain colon"
    (by decide) (by decide) (by decide) (by decide) rfl
  exact ⟨h.1, h.2
    [{ URL := "cache_object:foo/bar", IsInternal := false, IsAccessible := false }]
    { URL := "cache_object:foo/bar", IsInternal := false, IsAccessible := false }
    (by simp) rfl⟩

/-! ## Claim C4 -/

mutual
/-- The single traversal of `hasLoginForm` computes exactly the pair of
depth-bounded existential scans for a password input and for a login-context
signal. -/
theorem loginScan_decomp_node : ∀ (n : HNode) (depth : Nat),
    loginScanNode n depth
      = (existsNodeWithin isPasswordInput n depth, existsNodeWithin isLoginSignal n depth)
  | .mk kind data attr children, depth => by
    rw [loginScanNode, existsNodeWithin, existsNodeWithin]
    by_cases hd : depth > MaxHTMLDepth
    · simp [hd]
    · simp only [hd, if_false]
      rw [loginScan_decomp_forest children (depth + 1)]

theorem loginScan_decomp_forest : ∀ (f : HForest) (depth : Nat),
    loginScanForest f depth
      = (existsForestWithin isPasswordInput f depth, existsForestWithin isLoginSignal f depth)
  | .nil, depth => by
    rw [loginScanForest, existsForestWithin, existsForestWithin]
  | .cons n f, depth => by
    rw [loginScanForest, existsForestWithin, existsForestWithin,
      loginScan_decomp_node n depth, loginScan_decomp_forest f depth]
end

/-- C4: `hasLoginForm` is true exactly when the depth-bounded traversal sees
both a password input and a login-context signal; in particular a lone
`<input type="password" name="password">` yields true, a password input with
no context keyword anywhere yields false, and context keywords without a
password field yield false. -/
theorem hasLoginForm_spec :
    (∀ doc : HNode, hasLoginForm doc
      = (existsNodeWithin isPasswordInput doc 0 && existsNodeWithin isLoginSignal doc 0)) ∧
    hasLoginForm c4LoginDoc = true ∧
    hasLoginForm c4PwOnlyDoc = false ∧
    hasLoginForm c4CtxOnlyDoc = false := by
  refine ⟨?_, by decide, by decide, by decide⟩
  intro doc
  unfold hasLoginForm
  rw [loginScan_decomp_node doc 0]

/-! ## Claim C2 -/

/-- C2 (the bug): on the doctype text `html 4.01 strict`, the table scan's
answer depends on the map iteration order — the source-text order yields
`HTML 4.01 Strict`, while an order (also a permutation of the map entries)
that reaches the bare `html` pattern first yields `HTML`.  Go randomises map
iteration order, so the code does not satisfy the claimed determinism. -/
theorem extractHTMLVersion_order_dependent :
    c2PatOrder.Perm doctypePairs ∧
    extractHTMLVersion doctypePairs c2Doc = "HTML 4.01 Strict" ∧
    extractHTMLVersion c2PatOrder c2Doc = "HTML" := by
  refine ⟨by decide, by decide, by decide⟩

/-! ## Claim C9 -/


theorem processLink_hosts_eq (acc : LinkAnalysis × List String) (l : Link) :
    ((processLink acc l).1.ExternalHosts, (processLink acc l).2)
      = if l.IsInternal = true then (acc.1.ExternalHosts, acc.2)
        else match goURLParse l.URL with
          | .ok u =>
            if u.Host ∈ acc.2 then (acc.1.ExternalHosts, acc.2)
            else (acc.1.ExternalHosts ++ [u.Host], u.Host :: acc.2)
          | .error _ => (acc.1.ExternalHosts, acc.2) := by
  unfold processLink
  by_cases hi : l.IsInternal = true
  · by_cases ha : l.IsAccessible = true <;> simp [hi, ha]
  · cases hp : goURLParse l.URL with
    | ok u =>
      by_cases hseen : u.Host ∈ acc.2
      · by_cases ha : l.IsAccessible = true <;> simp [hi, ha, hp, hseen]
      · by_cases ha : l.IsAccessible = true <;> simp [hi, ha, hp, hseen]
    | error e => by_cases ha : l.IsAccessible = true <;> simp [hi, ha, hp]

theorem processLink_hosts (acc : LinkAnalysis × List String) (l : Link)
    (hinv : ∀ h, h ∈ acc.2 ↔ h ∈ acc.1.ExternalHosts) :
    (∀ h, h ∈ (processLink acc l).1.ExternalHosts ↔
       (h ∈ acc.1.ExternalHosts ∨ linkYieldsHost l h)) ∧
    (∀ h, h ∈ (processLink acc l).2 ↔ h ∈ (processLink acc l).1.ExternalHosts) ∧
    (acc.1.ExternalHosts.Nodup → (processLink acc l).1.ExternalHosts.Nodup) := by
  have heq := processLink_hosts_eq acc l
  by_cases hi : l.IsInternal = true
  · rw [if_pos hi] at heq
    have h1 := congrArg Prod.fst heq
    have h2 := congrArg Prod.snd heq
    simp only at h1 h2
    rw [h1, h2]
    refine ⟨fun h => ?_, fun h => hinv h, fun hnd => hnd⟩
    simp [linkYieldsHost, hi]
  · rw [if_neg hi] at heq
    have hif : l.IsInternal = false := by simpa using hi
    cases hp : goURLParse l.URL with
    | error e =>
      rw [hp] at heq
      simp only at heq
      have h1 := congrArg Prod.fst heq
      have h2 := congrArg Prod.snd heq
      simp only at h1 h2
      rw [h1, h2]
      refine ⟨fun h => ?_, fun h => hinv h, fun hnd => hnd⟩
      simp [linkYieldsHost, hp]
    | ok u =>
      rw [hp] at heq
      by_cases hseen : u.Host ∈ acc.2
      · simp only [hseen, if_true] at heq
        have hmem := (hinv u.Host).mp hseen
        have h1 := congrArg Prod.fst heq
        have h2 := congrArg Prod.snd heq
        simp only at h1 h2
        rw [h1, h2]
        refine ⟨fun h => ?_, fun h => hinv h, fun hnd => hnd⟩
        simp only [linkYieldsHost, hp, Except.ok.injEq]
        constructor
        · exact fun hh => Or.inl hh
        · rintro (hh | ⟨-, u2, rfl, hh⟩)
          · exact hh
          · rw [← hh]; exact hmem
      · simp only [hseen, if_false] at heq
        have hnmem : u.Host ∉ acc.1.ExternalHosts := fun hc => hseen ((hinv u.Host).mpr hc)
        have h1 := congrArg Prod.fst heq
        have h2 := congrArg Prod.snd heq
        simp only at h1 h2
        rw [h1, h2]
        refine ⟨fun h => ?_, fun h => ?_, fun hnd => ?_⟩
        · simp only [linkYieldsHost, hp, Except.ok.injEq, List.mem_append,
            List.mem_singleton]
          constructor
          · rintro (hh | rfl)
            · exact Or.inl hh
            · exact Or.inr ⟨hif, u, rfl, rfl⟩
          · rintro (hh | ⟨-, u2, rfl, hh⟩)
            · exact Or.inl hh
            · exact Or.inr hh.symm
        · simp only [List.mem_cons, List.mem_append, List.mem_singleton, hinv]
          tauto
        · rw [List.nodup_append]
          exact ⟨hnd, List.nodup_singleton _, by simp [List.disjoint_singleton, hnmem]⟩

theorem aggFold_hosts (order : List Link) : ∀ acc : LinkAnalysis × List String,
    (∀ h, h ∈ acc.2 ↔ h ∈ acc.1.ExternalHosts) →
    (∀ h, h ∈ (order.foldl processLink acc).1.ExternalHosts ↔
       (h ∈ acc.1.ExternalHosts ∨ ∃ l ∈ order, linkYieldsHost l h)) ∧
    (∀ h, h ∈ (order.foldl processLink acc).2
       ↔ h ∈ (order.foldl processLink acc).1.ExternalHosts) ∧
    (acc.1.ExternalHosts.Nodup → (order.foldl processLink acc).1.ExternalHosts.Nodup) := by
  induction order with
  | nil =>
    intro acc hinv
    refine ⟨fun h => ?_, fun h => hinv h, fun hnd => hnd⟩
    simp
  | cons l rest ih =>
    intro acc hinv
    simp only [List.foldl_cons]
    obtain ⟨p1, p2, p3⟩ := processLink_hosts acc l hinv
    obtain ⟨i1, i2, i3⟩ := ih (processLink acc l) p2
    refine ⟨fun h => ?_, i2, fun hnd => i3 (p3 hnd)⟩
    rw [i1 h, p1 h]
    simp only [List.mem_cons]
    constructor
    · rintro ((hh | hh) | ⟨l2, hl2, hy⟩)
      · exact Or.inl hh
      · exact Or.inr ⟨l, Or.inl rfl, hh⟩
      · exact Or.inr ⟨l2, Or.inr hl2, hy⟩
    · rintro (hh | ⟨l2, (rfl | hl2), hy⟩)
      · exact Or.inl (Or.inl hh)
      · exact Or.inl (Or.inr hy)
      · exact Or.inr ⟨l2, hl2, hy⟩

/-- C9 (amended): the aggregated link analysis depends on the goroutine
completion order only through the order of `BrokenLinks` and
`ExternalHosts`: across any two serialisations of the same link set, the
three counters agree, `BrokenLinks` agree as multisets, and `ExternalHosts`
agree as duplicate-free sets. -/
theorem analyze_schedule_invariance (links σ1 σ2 : List Link)
    (h1 : σ1.Perm links) (h2 : σ2.Perm links) :
    (analyzeLinkAccessibility σ1).Internal = (analyzeLinkAccessibility σ2).Internal ∧
    (analyzeLinkAccessibility σ1).External = (analyzeLinkAccessibility σ2).External ∧
    (analyzeLinkAccessibility σ1).Inaccessible = (analyzeLinkAccessibility σ2).Inaccessible ∧
    (analyzeLinkAccessibility σ1).BrokenLinks.Perm (analyzeLinkAccessibility σ2).BrokenLinks ∧
    (∀ h, h ∈ (analyzeLinkAccessibility σ1).ExternalHosts
       ↔ h ∈ (analyzeLinkAccessibility σ2).ExternalHosts) ∧
    (analyzeLinkAccessibility σ1).ExternalHosts.Nodup ∧
    (analyzeLinkAccessibility σ2).ExternalHosts.Nodup := by
  have hp : σ1.Perm σ2 := h1.trans h2.symm
  obtain ⟨a1, b1, c1, d1⟩ := aggFold_spec σ1 (emptyLinkAnalysis, [])
  obtain ⟨a2, b2, c2, d2⟩ := aggFold_spec σ2 (emptyLinkAnalysis, [])
  have hinv0 : ∀ h, h ∈ ([] : List String) ↔ h ∈ emptyLinkAnalysis.ExternalHosts := by
    simp [emptyLinkAnalysis]
  obtain ⟨m1, -, n1⟩ := aggFold_hosts σ1 (emptyLinkAnalysis, []) hinv0
  obtain ⟨m2, -, n2⟩ := aggFold_hosts σ2 (emptyLinkAnalysis, []) hinv0
  unfold analyzeLinkAccessibility
  refine ⟨?_, ?_, ?_, ?_, ?_, ?_, ?_⟩
  · rw [a1, a2, hp.countP_eq]
  · rw [b1, b2, hp.countP_eq]
  · rw [c1, c2, hp.countP_eq]
  · rw [d1, d2]
    simp only [emptyLinkAnalysis, List.nil_append]
    exact (hp.filter _).map _
  · intro h
    rw [m1 h, m2 h]
    have hemp : emptyLinkAnalysis.ExternalHosts = [] := rfl
    simp only [hemp, List.not_mem_nil, false_or]
    exact ⟨fun ⟨l, hl, hy⟩ => ⟨l, hp.mem_iff.mp hl, hy⟩,
           fun ⟨l, hl, hy⟩ => ⟨l, hp.mem_iff.mpr hl, hy⟩⟩
  · exact n1 (by simp [emptyLinkAnalysis])
  · exact n2 (by simp [emptyLinkAnalysis])

/-- Witness for C9's amended statement: two explicit serialisations of the
same two links produce `BrokenLinks` lists that are permutations of each
other. -/
theorem analyze_schedule_invariance_witness :
    (analyzeLinkAccessibility [c9LinkA, c9LinkB]).BrokenLinks.Perm
      (analyzeLinkAccessibility [c9LinkB, c9LinkA]).BrokenLinks :=
  (analyze_schedule_invariance [c9LinkA, c9LinkB] [c9LinkA, c9LinkB] [c9LinkB, c9LinkA]
    (List.Perm.refl _) (by decide)).2.2.2.1

/-- C9 counterexample: on the same two-link set, two goroutine completion
orders (both permutations of the extracted links, hence both realisable on
identical fetched bytes and a deterministic transport) produce different
`AnalysisResult` link fields — the order of `BrokenLinks`/`ExternalHosts`
differs — refuting byte-identical reproducibility of every field but
`loadTime`. -/
theorem analyze_order_dependent :
    [c9LinkB, c9LinkA].Perm [c9LinkA, c9LinkB] ∧
    analyzeLinkAccessibility [c9LinkA, c9LinkB] ≠ analyzeLinkAccessibility [c9LinkB, c9LinkA] := by
  refine ⟨by decide, by decide⟩

/-! ## Claim C3 -/

/-- C3 counterexample: a 204 No Content response — a 2xx success — still
short-circuits `AnalyzeURL` into the partial-result-plus-error path, because
the code tests `StatusCode != 200`, not "not 2xx". -/
theorem analyzeURL_204_shortcircuit :
    AnalyzeURL (fun _ => .success 204 "<html></html>") (fun _ => emptyDocNode)
        doctypePairs id (fun _ => none) 7 "http://site.example/" initialParserState
      = ((some { StatusCode := 204, LoadTime := 7 }, some "HTTP 204: HTTP 204"),
         initialParserState) := by
  rfl

/-- C3 (amended): for a fetched response with any status other than exactly
200, `AnalyzeURL` returns the HTTP-status error together with a partial
result carrying only the status code and the elapsed time; for status 200 it
does not short-circuit but proceeds to parsing and link classification. -/
theorem analyzeURL_status_behaviour (fetch : String → FetchResult) (htmlParse : String → HNode)
    (patOrder : List (String × String)) (sched : List Link → List Link) (tr : Transport)
    (elapsed : Nat) (targetURL : String) (st : ParserState) (status : Nat) (body : String)
    (hval : ValidateURL targetURL = .ok ())
    (hfetch : fetch targetURL = .success status body) :
    (status ≠ 200 →
      AnalyzeURL fetch htmlParse patOrder sched tr elapsed targetURL st
        = ((some { StatusCode := status, LoadTime := elapsed },
            some ("HTTP " ++ toString status ++ ": " ++ getHTTPStatusMessage status)), st)) ∧
    (status = 200 → ∀ (parsed : ParsedHTML) (st2 : ParserState),
      htmlParserParse htmlParse patOrder tr (String.mk (body.data.take MaxContentSize))
          targetURL st = (.ok parsed, st2) →
      AnalyzeURL fetch htmlParse patOrder sched tr elapsed targetURL st
        = ((some { HTMLVersion := parsed.HTMLVersion, Title := parsed.Title,
                   Headings := parsed.Headings,
                   Links := analyzeLinkAccessibility (sched parsed.Links),
                   HasLoginForm := parsed.HasLoginForm, LoadTime := elapsed,
                   ContentLength := parsed.ContentLength, StatusCode := status }, none),
           st2)) := by
  constructor
  · intro hne
    unfold AnalyzeURL
    simp only [hval, hfetch]
    simp [hne]
  · intro h200 parsed st2 hparse
    subst h200
    unfold AnalyzeURL
    simp only [hval, hfetch, hparse]
    simp

/-- Witness for C3's amended statement at a concrete 404 fetch. -/
theorem analyzeURL_status_behaviour_witness :
    AnalyzeURL (fun _ => .success 404 "") (fun _ => emptyDocNode) doctypePairs id
        (fun _ => none) 5 "http://site.example/" initialParserState
      = ((some { StatusCode := 404, LoadTime := 5 }, some "HTTP 404: page not found"),
         initialParserState) :=
  (analyzeURL_status_behaviour (fun _ => .success 404 "") (fun _ => emptyDocNode)
      doctypePairs id (fun _ => none) 5 "http://site.example/" initialParserState
      404 "" rfl rfl).1 (by decide)

/-! ## Claim C7 -/

theorem probeWithCache_inv (tr : Transport) (fullURL : String) (st : ParserState)
    (h : probeInv st) : probeInv (probeWithCache tr fullURL st).2 := by
  unfold probeWithCache
  cases hc : cacheLookup st.urlCache fullURL with
  | some b => exact h
  | none =>
    obtain ⟨hnd, hmem⟩ := h
    have hnew : fullURL ∉ st.calls := fun hin => hmem fullURL hin hc
    constructor
    · by_cases hcall : (checkHTTPLink tr fullURL).2 = true
      · simp only [hcall, if_true]
        simpa [List.nodup_append] using ⟨hnd, hnew⟩
      · simp only [hcall, if_false]
        exact hnd
    · intro u hu
      have hu2 : u ∈ st.calls ∨ u = fullURL := by
        by_cases hcall : (checkHTTPLink tr fullURL).2 = true
        · simp only [hcall, if_true] at hu
          simpa using List.mem_append.mp hu
        · simp only [hcall, if_false] at hu
          exact Or.inl hu
      show cacheLookup ((fullURL, (checkHTTPLink tr fullURL).1) :: st.urlCache) u ≠ none
      unfold cacheLookup
      by_cases he : fullURL = u
      · simp [he]
      · simp only [he, if_false]
        rcases hu2 with hu2 | hu2
        · exact hmem u hu2
        · exact absurd hu2.symm he

theorem checkLinkAccessibility_inv (tr : Transport) (href baseURL : String) (st : ParserState)
    (h : probeInv st) : probeInv (checkLinkAccessibility tr href baseURL st).2 := by
  unfold checkLinkAccessibility
  repeat' split
  all_goals first
    | exact h
    | exact probeWithCache_inv _ _ _ h

mutual
theorem extractLinksNode_inv (tr : Transport) (base : String) :
    ∀ (n : HNode) (depth : Nat) (st : ParserState), probeInv st →
    probeInv (extractLinksNode tr base n depth st).2
  | .mk kind data attr children, depth, st, h => by
    rw [extractLinksNode]
    dsimp only
    split
    · exact h
    · refine extractLinksForest_inv tr base children (depth + 1) _ ?_
      split
      · split
        all_goals first
          | exact h
          | exact checkLinkAccessibility_inv _ _ _ _ h
      · exact h

theorem extractLinksForest_inv (tr : Transport) (base : String) :
    ∀ (f : HForest) (depth : Nat) (st : ParserState), probeInv st →
    probeInv (extractLinksForest tr base f depth st).2
  | .nil, _, _, h => h
  | .cons n f, depth, st, h => by
    rw [extractLinksForest]
    dsimp only
    exact extractLinksForest_inv tr base f depth _ (extractLinksNode_inv tr base n depth st h)
end

/-- C7: over a whole `Parse` run from a freshly constructed parser, the
probe trace contains no resolved URL twice — once a URL's accessibility has
been computed and cached, later links resolving to it are answered from the
cache with no further transport call. -/
theorem probes_memoized (htmlParse : String → HNode) (patOrder : List (String × String))
    (tr : Transport) (content baseURL : String) :
    ((htmlParserParse htmlParse patOrder tr content baseURL initialParserState).2).calls.Nodup := by
  have hinv : probeInv initialParserState := ⟨List.nodup_nil, by simp [initialParserState]⟩
  unfold htmlParserParse
  split
  · exact hinv.1
  · split
    · exact hinv.1
    · exact (extractLinksNode_inv tr baseURL (htmlParse content) 0 initialParserState hinv).1

/-! ## Claim C8 -/

theorem cacheLookup_cons (k : String) (v : Bool) (cache : List (String × Bool)) (url : String) :
    cacheLookup ((k, v) :: cache) url = if k = url then some v else cacheLookup cache url := rfl

theorem probeWithCache_faithful (tr : Transport) (fullURL : String) (st : ParserState)
    (hf : cacheFaithful tr st.urlCache) :
    (probeWithCache tr fullURL st).1 = (checkHTTPLink tr fullURL).1 ∧
    cacheFaithful tr ((probeWithCache tr fullURL st).2).urlCache := by
  unfold probeWithCache
  cases hc : cacheLookup st.urlCache fullURL with
  | some b => exact ⟨hf fullURL b hc, hf⟩
  | none =>
    refine ⟨rfl, ?_⟩
    intro url b hb
    rw [cacheLookup_cons] at hb
    by_cases he : fullURL = url
    · rw [if_pos he] at hb
      have hb2 := Option.some.inj hb
      rw [← hb2, ← he]
    · rw [if_neg he] at hb
      exact hf url b hb

theorem checkLinkAccessibility_pure (tr : Transport) (href baseURL : String)
    (st : ParserState) (hf : cacheFaithful tr st.urlCache) :
    (checkLinkAccessibility tr href baseURL st).1 = pureLinkAccessible tr href baseURL ∧
    cacheFaithful tr ((checkLinkAccessibility tr href baseURL st).2).urlCache := by
  unfold checkLinkAccessibility pureLinkAccessible
  by_cases h0 : strStartsWith href "#" = true ∨ strStartsWith href "?" = true ∨
      strStartsWith href "mailto:" = true ∨ strStartsWith href "tel:" = true
  · rw [if_pos h0, if_pos h0]
    exact ⟨rfl, hf⟩
  · rw [if_neg h0, if_neg h0]
    cases hp : goURLParse href with
    | error e => exact ⟨rfl, hf⟩
    | ok u =>
      dsimp only
      by_cases h1 : u.Scheme = "" ∧ u.Host = ""
      · rw [if_pos h1, if_pos h1]
        cases hb : goURLParse baseURL with
        | error e => exact ⟨rfl, hf⟩
        | ok bu => exact probeWithCache_faithful tr _ st hf
      · rw [if_neg h1, if_neg h1]
        by_cases h2 : strStartsWith href "/" = true
        · rw [if_pos h2, if_pos h2]
          cases hb : goURLParse baseURL with
          | error e => exact ⟨rfl, hf⟩
          | ok bu => exact probeWithCache_faithful tr _ st hf
        · rw [if_neg h2, if_neg h2]
          by_cases h3 : ¬contains SupportedSchemes u.Scheme = true
          · rw [if_pos h3, if_pos h3]
            exact ⟨rfl, hf⟩
          · rw [if_neg h3, if_neg h3]
            exact probeWithCache_faithful tr _ st hf

mutual
/-- With a transport-faithful cache, the links extracted by `extractLinks`
do not depend on the cache contents, and the cache stays faithful. -/
theorem extractLinksNode_faithful (tr : Transport) (base : String) :
    ∀ (n : HNode) (depth : Nat) (st st' : ParserState),
    cacheFaithful tr st.urlCache → cacheFaithful tr st'.urlCache →
    (extractLinksNode tr base n depth st).1 = (extractLinksNode tr base n depth st').1 ∧
    cacheFaithful tr ((extractLinksNode tr base n depth st).2).urlCache
  | .mk kind data attr children, depth, st, st', hf, hf' => by
    rw [extractLinksNode, extractLinksNode]
    dsimp only
    by_cases hd : depth > MaxHTMLDepth
    · rw [if_pos hd, if_pos hd]
      exact ⟨rfl, hf⟩
    · rw [if_neg hd, if_neg hd]
      by_cases he : kind = NodeKind.element ∧ data = HTMLElementA
      · rw [if_pos he, if_pos he]
        cases hh : firstNonEmptyHref attr with
        | some v =>
          dsimp only
          obtain ⟨hacc, hfa⟩ := checkLinkAccessibility_pure tr v base st hf
          obtain ⟨hacc', hfa'⟩ := checkLinkAccessibility_pure tr v base st' hf'
          obtain ⟨hrest, hfrest⟩ := extractLinksForest_faithful tr base children (depth + 1)
            (checkLinkAccessibility tr v base st).2 (checkLinkAccessibility tr v base st').2
            hfa hfa'
          refine ⟨?_, hfrest⟩
          rw [hrest, hacc, hacc']
        | none =>
          dsimp only
          obtain ⟨hrest, hfrest⟩ :=
            extractLinksForest_faithful tr base children (depth + 1) st st' hf hf'
          exact ⟨by rw [hrest], hfrest⟩
      · rw [if_neg he, if_neg he]
        dsimp only
        obtain ⟨hrest, hfrest⟩ :=
          extractLinksForest_faithful tr base children (depth + 1) st st' hf hf'
        exact ⟨by rw [hrest], hfrest⟩

theorem extractLinksForest_faithful (tr : Transport) (base : String) :
    ∀ (f : HForest) (depth : Nat) (st st' : ParserState),
    cacheFaithful tr st.urlCache → cacheFaithful tr st'.urlCache →
    (extractLinksForest tr base f depth st).1 = (extractLinksForest tr base f depth st').1 ∧
    cacheFaithful tr ((extractLinksForest tr base f depth st).2).urlCache
  | .nil, _, st, st', hf, hf' => ⟨rfl, hf⟩
  | .cons n f, depth, st, st', hf, hf' => by
    rw [extractLinksForest, extractLinksForest]
    dsimp only
    obtain ⟨hn, hfn⟩ := extractLinksNode_faithful tr base n depth st st' hf hf'
    obtain ⟨hfn'⟩ : cacheFaithful tr ((extractLinksNode tr base n depth st').2).urlCache ∧ True :=
      ⟨(extractLinksNode_faithful tr base n depth st' st hf' hf).2, trivial⟩
    obtain ⟨hrest, hfrest⟩ := extractLinksForest_faithful tr base f depth
      (extractLinksNode tr base n depth st).2 (extractLinksNode tr base n depth st').2 hfn hfn'
    refine ⟨?_, hfrest⟩
    rw [hn, hrest]
end

/-- C8 (amended): the URL-accessibility cache lives on the parser instance
and persists across `Parse` invocations, so a later invocation's probe
behaviour is not that of a fresh run; but because every cache entry records
exactly what the (deterministic) transport returns, the `ParsedHTML` result
of a `Parse` run from any transport-faithful instance state equals the
result of a run from a freshly constructed parser. -/
theorem parse_results_cache_independent (htmlParse : String → HNode)
    (patOrder : List (String × String)) (tr : Transport) (content baseURL : String)
    (st : ParserState) (hf : cacheFaithful tr st.urlCache) :
    (htmlParserParse htmlParse patOrder tr content baseURL st).1
      = (htmlParserParse htmlParse patOrder tr content baseURL initialParserState).1 := by
  have hf0 : cacheFaithful tr initialParserState.urlCache := by
    intro url b hb
    simp [initialParserState, cacheLookup] at hb
  unfold htmlParserParse
  split
  · rfl
  · split
    · rfl
    · dsimp only
      rw [(extractLinksNode_faithful tr baseURL (htmlParse content) 0 st
        initialParserState hf hf0).1]

/-- Witness for C8's amended statement: a parser whose instance cache
already holds the (transport-faithful) verdict for the page's only link
returns the same `ParsedHTML` as a freshly constructed parser. -/
theorem parse_results_cache_independent_witness :
    (htmlParserParse (fun _ => c8Doc) doctypePairs (fun _ => some 200) "x"
        "http://site.example/"
        { urlCache := [("http://ext.example/x", true)],
          calls := ["http://ext.example/x"] }).1
      = (htmlParserParse (fun _ => c8Doc) doctypePairs (fun _ => some 200) "x"
          "http://site.example/" initialParserState).1 :=
  parse_results_cache_independent (fun _ => c8Doc) doctypePairs (fun _ => some 200) "x"
    "http://site.example/"
    { urlCache := [("http://ext.example/x", true)], calls := ["http://ext.example/x"] }
    (by
      intro url b hb
      rw [cacheLookup_cons] at hb
      by_cases he : ("http://ext.example/x" : String) = url
      · rw [if_pos he] at hb
        have hb2 := Option.some.inj hb
        rw [← hb2, ← he]
        decide
      · rw [if_neg he] at hb
        simp [cacheLookup] at hb)

/-- C8 counterexample: on the same parser instance, with a transport that
answers 200 everywhere, the first `Parse` run probes the page's link once;
a second `Parse` run over the same content issues no transport call at all
(its trace stays exactly the first run's trace), while a run starting from
an empty cache — which is what the claim says the second invocation behaves
like — issues one: the second invocation's probe behaviour is not that of a
fresh run. -/
theorem parser_cache_persists :
    ((htmlParserParse (fun _ => c8Doc) doctypePairs (fun _ => some 200) "x"
        "http://site.example/" initialParserState).2).calls = ["http://ext.example/x"] ∧
    ((htmlParserParse (fun _ => c8Doc) doctypePairs (fun _ => some 200) "x"
        "http://site.example/"
        (htmlParserParse (fun _ => c8Doc) doctypePairs (fun _ => some 200) "x"
          "http://site.example/" initialParserState).2).2).calls
      = ["http://ext.example/x"] ∧
    ((htmlParserParse (fun _ => c8Doc) doctypePairs (fun _ => some 200) "x"
        "http://site.example/"
        (htmlParserParse (fun _ => c8Doc) doctypePairs (fun _ => some 200) "x"
          "http://site.example/" initialParserState).2).2).calls.drop
        (((htmlParserParse (fun _ => c8Doc) doctypePairs (fun _ => some 200) "x"
          "http://site.example/" initialParserState).2).calls.length)
      ≠ ((htmlParserParse (fun _ => c8Doc) doctypePairs (fun _ => some 200) "x"
          "http://site.example/" initialParserState).2).calls := by
  refine ⟨by decide, by decide, by decide⟩
